import Mathlib

/-!
Shallow embedding of the data-quality pipeline of src/main.py.

A pandas dataframe is modelled as a list of headers (column name plus dtype,
where dtype is either a numeric dtype, float64/int64, or the object dtype)
together with a list of rows; a cell is missing (NaN/None), a rational number
(exact model of the numeric values), or a string.  Quantiles use the
linear-interpolation estimator that pandas' Series.quantile applies, computed
exactly over the rationals; a quantile of a column with no non-missing numeric
value is undefined (pandas returns NaN there, and every comparison against NaN
is false, which the embedding renders by the surrounding Option match).

The two operations, validate_data and auto_correct_data, are transcribed
statement by statement from src/main.py.
-/

inductive Cell where
  | na : Cell
  | num : ℚ → Cell
  | str : String → Cell
deriving DecidableEq

inductive CKind where
  | numeric : CKind
  | object : CKind
deriving DecidableEq

structure Header where
  name : String
  kind : CKind
deriving DecidableEq

structure DF where
  headers : List Header
  rows : List (List Cell)
deriving DecidableEq

def cellAt (r : List Cell) (i : Nat) : Cell := r.getD i Cell.na

def colCells (df : DF) (i : Nat) : List Cell := df.rows.map (fun r => cellAt r i)

def isNumB : Cell → Bool
  | Cell.num _ => true
  | _ => false

def isNaB : Cell → Bool
  | Cell.na => true
  | _ => false

def numsOf (cs : List Cell) : List ℚ :=
  cs.filterMap (fun c => match c with | Cell.num q => some q | _ => none)

def defHeader : Header := { name := "", kind := CKind.object }

def colName (df : DF) (i : Nat) : String := (df.headers.getD i defHeader).name

def colKind (df : DF) (i : Nat) : CKind := (df.headers.getD i defHeader).kind

/-- Count of missing cells of column i, as df.isnull().sum() computes it. -/
def nMissing (df : DF) (i : Nat) : Nat := ((colCells df i).filter isNaB).length

/-- The per-column nonzero missing counts, in column order: the dictionary
rendered by the missing-values issue of validate_data. -/
def missingEntries (df : DF) : List (String × Nat) :=
  (List.range df.headers.length).filterMap
    (fun i => if nMissing df i != 0 then some (colName df i, nMissing df i) else none)

def sortQ (xs : List ℚ) : List ℚ := List.insertionSort (· ≤ ·) xs

/-- Linear-interpolation quantile of an already sorted list, pandas' default
interpolation: the p-quantile sits at rank (n-1)p between the two nearest
order statistics. -/
def interpAt (qs : List ℚ) (p : ℚ) : ℚ :=
  let h : ℚ := ((qs.length : ℚ) - 1) * p
  let i : ℕ := (⌊h⌋).toNat
  let a : ℚ := qs.getD i 0
  let b : ℚ := qs.getD (i + 1) a
  a + (h - (i : ℚ)) * (b - a)

/-- Series.quantile: missing cells are dropped; the quantile of an all-missing
column is undefined (NaN in pandas). -/
def quantile (cs : List Cell) (p : ℚ) : Option ℚ :=
  let qs := sortQ (numsOf cs)
  if qs.isEmpty then none else some (interpAt qs p)

def median (cs : List Cell) : Option ℚ := quantile cs (1/2)

/-- The pair of IQR fences (Q1 - 1.5 IQR, Q3 + 1.5 IQR) of a column, undefined
when the quartiles are (both quartiles are defined or undefined together). -/
def fences (cs : List Cell) : Option (ℚ × ℚ) :=
  match quantile cs (1/4), quantile cs (3/4) with
  | some q1, some q3 => some (q1 - 3/2 * (q3 - q1), q3 + 3/2 * (q3 - q1))
  | _, _ => none

/-- The outlier test of validate_data, line 31: df[col] < Q1 - 1.5 IQR or
df[col] > Q3 + 1.5 IQR.  A missing cell satisfies neither comparison (NaN
comparisons are false in pandas), and when the fences themselves are undefined
every comparison is false. -/
def outB (df : DF) (i : Nat) (r : List Cell) : Bool :=
  match fences (colCells df i) with
  | none => false
  | some (lo, hi) =>
    match cellAt r i with
    | Cell.num v => decide (v < lo ∨ hi < v)
    | _ => false

def outlierRows (df : DF) (i : Nat) : List (List Cell) := df.rows.filter (outB df i)

/-- Indices of the float64/int64 columns, as df.select_dtypes picks them. -/
def numericIdxs (df : DF) : List Nat :=
  (List.range df.headers.length).filter (fun i => decide (colKind df i = CKind.numeric))

def outlierColNames (df : DF) : List String :=
  (numericIdxs df).filterMap
    (fun i => if (outlierRows df i).isEmpty then none else some (colName df i))

/-- The hard-coded allow-list of validate_data, line 21. -/
def exemptNames : List String := ["customer", "region", "product", "category"]

def lowerStr (s : String) : String := String.mk (s.toList.map Char.toLower)

/-- Condition of line 21 of src/main.py: object dtype and lowercased name not
in the allow-list. -/
def nonNumFlag (df : DF) (i : Nat) : Bool :=
  decide (colKind df i = CKind.object ∧ lowerStr (colName df i) ∉ exemptNames)

inductive Issue where
  | MissingValues : List (String × Nat) → Issue
  | NonNumericColumn : String → Issue
  | OutlierColumns : List String → Issue
deriving DecidableEq

/-- Transcription of validate_data (src/main.py lines 8-38): the running pair
is (issues_found, report); the three scans append their issues in program
order. -/
def validate_data (df : DF) : Bool × List Issue :=
  let acc0 : Bool × List Issue := (false, [])
  let acc1 :=
    if (List.range df.headers.length).any (fun i => nMissing df i != 0) then
      (true, acc0.2 ++ [Issue.MissingValues (missingEntries df)])
    else acc0
  let acc2 :=
    (List.range df.headers.length).foldl
      (fun acc i =>
        if nonNumFlag df i then (true, acc.2 ++ [Issue.NonNumericColumn (colName df i)])
        else acc)
      acc1
  let ocols :=
    (numericIdxs df).foldl
      (fun acc i => if (outlierRows df i).isEmpty then acc else acc ++ [colName df i]) []
  if ocols.isEmpty then acc2
  else (true, acc2.2 ++ [Issue.OutlierColumns ocols])

/-- The missing-values issue of the report, when present. -/
def missingPart (df : DF) : List Issue :=
  if (List.range df.headers.length).any (fun i => nMissing df i != 0) then
    [Issue.MissingValues (missingEntries df)]
  else []

/-- One non-numeric-column issue per offending column, in column order. -/
def nonNumPart (df : DF) : List Issue :=
  (List.range df.headers.length).filterMap
    (fun i => if nonNumFlag df i then some (Issue.NonNumericColumn (colName df i)) else none)

/-- The single combined outliers issue, when present. -/
def outlierPart (df : DF) : List Issue :=
  if (outlierColNames df).isEmpty then [] else [Issue.OutlierColumns (outlierColNames df)]

def validateReport (df : DF) : List Issue := missingPart df ++ nonNumPart df ++ outlierPart df

/-- State-threaded missing-value scan: the scan reads the dataframe and hands
it back untouched (lines 14-17 contain no mutation of df). -/
def missingScanSt (acc : Bool × List Issue) (df : DF) : (Bool × List Issue) × DF :=
  (if (List.range df.headers.length).any (fun i => nMissing df i != 0) then
      (true, acc.2 ++ [Issue.MissingValues (missingEntries df)])
    else acc, df)

/-- State-threaded type-consistency scan (lines 20-23, read-only). -/
def nonNumScanSt (acc : Bool × List Issue) (df : DF) : (Bool × List Issue) × DF :=
  ((List.range df.headers.length).foldl
      (fun a i => if nonNumFlag df i then (true, a.2 ++ [Issue.NonNumericColumn (colName df i)]) else a)
      acc, df)

/-- State-threaded outlier scan (lines 26-36, read-only). -/
def outlierScanSt (acc : Bool × List Issue) (df : DF) : (Bool × List Issue) × DF :=
  (let ocols :=
      (numericIdxs df).foldl
        (fun a i => if (outlierRows df i).isEmpty then a else a ++ [colName df i]) []
   if ocols.isEmpty then acc else (true, acc.2 ++ [Issue.OutlierColumns ocols]), df)

/-- validate_data with the dataframe state made explicit: the result of the
call together with the dataframe as it stands after the call. -/
def validateSt (df : DF) : (Bool × List Issue) × DF :=
  let s1 := missingScanSt (false, []) df
  let s2 := nonNumScanSt s1.1 s1.2
  let s3 := outlierScanSt s2.1 s2.2
  s3

/-- Digit-string value, for the numeric parser behind pd.to_numeric. -/
def parseDigits (cs : List Char) : Option ℕ :=
  if !cs.isEmpty && cs.all Char.isDigit then
    some (cs.foldl (fun a c => 10 * a + (c.toNat - 48)) 0)
  else none

/-- Numeric-literal parser modelling a single cell's conversion inside
pd.to_numeric: optional sign, integer digits, optional fractional digits. -/
def parseNum (s : String) : Option ℚ :=
  let cs := s.toList
  let sb : ℚ × List Char :=
    match cs with
    | '-' :: rest => (-1, rest)
    | '+' :: rest => (1, rest)
    | _ => (1, cs)
  match sb.2.splitOn '.' with
  | [ip] => (parseDigits ip).map (fun n => sb.1 * (n : ℚ))
  | [ip, fp] =>
    match parseDigits ip, parseDigits fp with
    | some a, some b => some (sb.1 * ((a : ℚ) + (b : ℚ) / (10 : ℚ) ^ fp.length))
    | _, _ => none
  | _ => none

/-- Per-cell conversion of pd.to_numeric: a missing cell stays missing, a
number stays itself, a string must parse. -/
def cellToNum : Cell → Option Cell
  | Cell.na => some Cell.na
  | Cell.num q => some (Cell.num q)
  | Cell.str s => (parseNum s).map Cell.num

/-- Column-level success condition of pd.to_numeric with errors equal ignore:
every cell of the column converts. -/
def colParses (cs : List Cell) : Bool := cs.all (fun c => (cellToNum c).isSome)

/-- One iteration of the conversion loop (src/main.py lines 46-51): an object
column is replaced by its numeric form iff every cell parses; otherwise
errors equal ignore hands the column back untouched. -/
def coerceStep (acc : DF) (i : Nat) : DF :=
  if colKind acc i = CKind.object then
    if colParses (colCells acc i) then
      { headers := acc.headers.set i { name := colName acc i, kind := CKind.numeric },
        rows := acc.rows.map (fun r => r.set i ((cellToNum (cellAt r i)).getD (cellAt r i))) }
    else acc
  else acc

/-- drop_duplicates with keep equal first: a row equal to an already seen row
is dropped, the first occurrence stays, relative order is preserved. -/
def dedupAux (seen : List (List Cell)) : List (List Cell) → List (List Cell)
  | [] => []
  | r :: rs => if r ∈ seen then dedupAux seen rs else r :: dedupAux (r :: seen) rs

def dedupRows (rs : List (List Cell)) : List (List Cell) := dedupAux [] rs

/-- One iteration of the imputation loop (line 56): fillna with the column
median; a median of an all-missing column is NaN and filling NaN with NaN
changes nothing, rendered by the none branch. -/
def imputeStep (acc : DF) (i : Nat) : DF :=
  match median (colCells acc i) with
  | none => acc
  | some m =>
    { acc with rows := acc.rows.map (fun r => if cellAt r i = Cell.na then r.set i (Cell.num m) else r) }

/-- The keep condition of line 62: df[col] >= Q1 - 1.5 IQR and
df[col] <= Q3 + 1.5 IQR.  A missing cell fails both comparisons, and when the
fences are NaN (no non-missing value in the column) every row fails. -/
def keepB (df : DF) (i : Nat) (r : List Cell) : Bool :=
  match fences (colCells df i) with
  | none => false
  | some (lo, hi) =>
    match cellAt r i with
    | Cell.num v => decide (lo ≤ v ∧ v ≤ hi)
    | _ => false

/-- One iteration of the outlier-removal loop (lines 59-62): the fences are
recomputed on the dataframe as already reduced by earlier iterations. -/
def filterStep (acc : DF) (i : Nat) : DF := { acc with rows := acc.rows.filter (keepB acc i) }

def dedupStage (df : DF) : DF := { df with rows := dedupRows df.rows }

def coerceStage (df : DF) : DF := (List.range df.headers.length).foldl coerceStep df

def imputeStage (df : DF) : DF := (numericIdxs df).foldl imputeStep df

def outlierStage (df : DF) : DF := (numericIdxs df).foldl filterStep df

/-- Transcription of auto_correct_data (src/main.py lines 41-64): duplicates
dropped, object columns converted all-or-nothing, numeric columns computed
once, then median imputation and cascading outlier removal over that list. -/
def auto_correct_data (df : DF) : DF :=
  let df1 := { df with rows := dedupRows df.rows }
  let df2 := (List.range df1.headers.length).foldl coerceStep df1
  let ncols := numericIdxs df2
  let df3 := ncols.foldl imputeStep df2
  ncols.foldl filterStep df3

/-- Modelled from the spec: the alternative snapshot policy of section 9,
where every numeric column's outlier row-set is computed against the single
post-imputation snapshot and the union of the row-sets is removed.  The
source implements the cascading policy instead; this definition only serves
to separate the two. -/
def snapshotOutlierStage (df : DF) : DF :=
  { df with rows := df.rows.filter (fun r => !(numericIdxs df).any (fun i => outB df i r)) }

def snapshotCorrect (df : DF) : DF :=
  snapshotOutlierStage (imputeStage (coerceStage (dedupStage df)))

/-- Modelled from the spec: the configurable type-consistency scan of section
4.1, taking the exempt-column-name set as a configuration argument.  The
source hard-codes the set instead (line 21); this definition only serves to
state that difference. -/
def nonNumPartCfg (exempt : List String) (df : DF) : List Issue :=
  (List.range df.headers.length).filterMap
    (fun i =>
      if colKind df i = CKind.object ∧ lowerStr (colName df i) ∉ exempt then
        some (Issue.NonNumericColumn (colName df i))
      else none)

/-- Deviation test against a single value m, the outlier predicate of a
column whose quartiles coincide. -/
def devFrom (m : ℚ) : Cell → Bool
  | Cell.num v => decide (v ≠ m)
  | _ => false

/-- Five distinct rows; column a is [0,0,0,0,100], so Q1 = Q3 = 0 and IQR = 0,
while column id is 1..5 and triggers nothing. -/
def dC1 : DF :=
  { headers := [{ name := "id", kind := CKind.numeric }, { name := "a", kind := CKind.numeric }],
    rows := [[Cell.num 1, Cell.num 0], [Cell.num 2, Cell.num 0], [Cell.num 3, Cell.num 0],
             [Cell.num 4, Cell.num 0], [Cell.num 5, Cell.num 100]] }

/-- Column A is numeric with zero non-missing cells; column B is ordinary. -/
def dC2 : DF :=
  { headers := [{ name := "A", kind := CKind.numeric }, { name := "B", kind := CKind.numeric }],
    rows := [[Cell.na, Cell.num 1], [Cell.na, Cell.num 2]] }

/-- A single textual column whose name lowercases into the allow-list. -/
def dC3 : DF :=
  { headers := [{ name := "Customer", kind := CKind.object }],
    rows := [[Cell.str "alice"]] }

/-- Two rows that differ only where one is missing: imputation makes them
equal duplicates. -/
def dC4 : DF :=
  { headers := [{ name := "A", kind := CKind.numeric }, { name := "B", kind := CKind.numeric }],
    rows := [[Cell.num 1, Cell.na], [Cell.num 1, Cell.num 2]] }

/-- Removing the X outlier row first changes the Y quartiles enough that the
value 8 stops being a Y outlier: cascading and snapshot removal differ here. -/
def dC6 : DF :=
  { headers := [{ name := "X", kind := CKind.numeric }, { name := "Y", kind := CKind.numeric }],
    rows := [[Cell.num 0, Cell.num 1], [Cell.num 0, Cell.num 2], [Cell.num 0, Cell.num 8],
             [Cell.num 0, Cell.num 3], [Cell.num 1000, Cell.num 2]] }

/-- The spec's coercible example column ["1","2","3"]. -/
def exAllNum : DF :=
  { headers := [{ name := "v", kind := CKind.object }],
    rows := [[Cell.str "1"], [Cell.str "2"], [Cell.str "3"]] }

/-- The spec's blocked example column ["1","2","x"]. -/
def exBlocked : DF :=
  { headers := [{ name := "v", kind := CKind.object }],
    rows := [[Cell.str "1"], [Cell.str "2"], [Cell.str "x"]] }

/-- A numeric column with two missing cells whose non-missing values all sit
inside the fences. -/
def dC10 : DF :=
  { headers := [{ name := "a", kind := CKind.numeric }],
    rows := [[Cell.na], [Cell.num 1], [Cell.num 2], [Cell.num 3], [Cell.na]] }

theorem getD_set_ne {α : Type} : ∀ (l : List α) (j i : Nat) (a d : α), j ≠ i →
    (l.set j a).getD i d = l.getD i d := by
  intro l
  induction l with
  | nil => intro j i a d _; rfl
  | cons x xs ih =>
    intro j i a d h
    cases j with
    | zero =>
      cases i with
      | zero => exact absurd rfl h
      | succ n => rfl
    | succ m =>
      cases i with
      | zero => rfl
      | succ n => exact ih m n a d (by omega)

theorem getD_set_self {α : Type} : ∀ (l : List α) (j : Nat) (a d : α), j < l.length →
    (l.set j a).getD j d = a := by
  intro l
  induction l with
  | nil => intro j a d h; cases h
  | cons x xs ih =>
    intro j a d h
    cases j with
    | zero => rfl
    | succ m => exact ih m a d (by simpa using h)

theorem set_getD_self {α : Type} : ∀ (l : List α) (i : Nat) (d : α),
    l.set i (l.getD i d) = l := by
  intro l
  induction l with
  | nil => intro i d; rfl
  | cons x xs ih =>
    intro i d
    cases i with
    | zero => rfl
    | succ m => simpa using ih m d

theorem getD_map {α β : Type} (f : α → β) : ∀ (l : List α) (i : Nat) (d : α),
    (l.map f).getD i (f d) = f (l.getD i d) := by
  intro l
  induction l with
  | nil => intro i d; rfl
  | cons x xs ih =>
    intro i d
    cases i with
    | zero => rfl
    | succ m => exact ih m d

theorem cellAt_set_ne (r : List Cell) (j i : Nat) (c : Cell) (h : j ≠ i) :
    cellAt (r.set j c) i = cellAt r i := getD_set_ne r j i c Cell.na h

theorem cellAt_set_self : ∀ (r : List Cell) (j : Nat) (c : Cell),
    cellAt (r.set j c) j = if j < r.length then c else Cell.na := by
  intro r
  induction r with
  | nil => intro j c; simp [cellAt]
  | cons x xs ih =>
    intro j c
    cases j with
    | zero => simp [cellAt]
    | succ m =>
      have := ih m c
      simpa [cellAt, List.getD, Nat.succ_lt_succ_iff] using this

theorem cellAt_ge : ∀ (r : List Cell) (i : Nat), r.length ≤ i → cellAt r i = Cell.na := by
  intro r
  induction r with
  | nil => intro i _; rfl
  | cons x xs ih =>
    intro i h
    cases i with
    | zero => cases h
    | succ m => exact ih m (by simpa using h)

theorem foldl_inv {β γ δ : Type} (f : β → δ) (step : β → γ → β)
    (h : ∀ acc i, f (step acc i) = f acc) :
    ∀ (l : List γ) (acc : β), f (l.foldl step acc) = f acc := by
  intro l
  induction l with
  | nil => intro acc; rfl
  | cons x xs ih => intro acc; rw [List.foldl_cons, ih, h]

theorem foldl_le {β γ : Type} (g : β → Nat) (step : β → γ → β)
    (h : ∀ acc i, g (step acc i) ≤ g acc) :
    ∀ (l : List γ) (acc : β), g (l.foldl step acc) ≤ g acc := by
  intro l
  induction l with
  | nil => intro acc; exact Nat.le_refl _
  | cons x xs ih => intro acc; exact Nat.le_trans (ih (step acc x)) (h acc x)

theorem foldl_subset (step : DF → Nat → DF)
    (h : ∀ acc i r, r ∈ (step acc i).rows → r ∈ acc.rows) :
    ∀ (l : List Nat) (acc : DF) (r : List Cell), r ∈ (l.foldl step acc).rows → r ∈ acc.rows := by
  intro l
  induction l with
  | nil => intro acc r hr; exact hr
  | cons x xs ih => intro acc r hr; exact h acc x r (ih (step acc x) r hr)

theorem foldl_if_append {γ δ : Type} (p : γ → Bool) (f : γ → δ) :
    ∀ (l : List γ) (init : List δ),
      l.foldl (fun acc i => if p i then acc ++ [f i] else acc) init
        = init ++ l.filterMap (fun i => if p i then some (f i) else none) := by
  intro l
  induction l with
  | nil => intro init; simp
  | cons x xs ih =>
    intro init
    by_cases hp : p x
    · simp [hp, ih]
    · simp [hp, ih]

theorem foldl_ifn_append {γ δ : Type} (p : γ → Bool) (f : γ → δ) :
    ∀ (l : List γ) (init : List δ),
      l.foldl (fun acc i => if p i then acc else acc ++ [f i]) init
        = init ++ l.filterMap (fun i => if p i then none else some (f i)) := by
  intro l
  induction l with
  | nil => intro init; simp
  | cons x xs ih =>
    intro init
    by_cases hp : p x
    · simp [hp, ih]
    · simp [hp, ih]

theorem foldl_flag_append {γ δ : Type} (p : γ → Bool) (f : γ → δ) :
    ∀ (l : List γ) (b : Bool) (init : List δ),
      l.foldl (fun acc i => if p i then (true, acc.2 ++ [f i]) else acc) (b, init)
        = (b || l.any p, init ++ l.filterMap (fun i => if p i then some (f i) else none)) := by
  intro l
  induction l with
  | nil => intro b init; simp
  | cons x xs ih =>
    intro b init
    by_cases hp : p x
    · simp [hp, ih]
    · simp [hp, ih]

theorem mem_dedupAux : ∀ (l seen : List (List Cell)) (x : List Cell),
    x ∈ dedupAux seen l ↔ x ∈ l ∧ x ∉ seen := by
  intro l
  induction l with
  | nil => intro seen x; simp [dedupAux]
  | cons r rs ih =>
    intro seen x
    by_cases hr : r ∈ seen
    · rw [dedupAux, if_pos hr, ih]
      constructor
      · rintro ⟨hx, hns⟩; exact ⟨List.mem_cons_of_mem r hx, hns⟩
      · rintro ⟨hx, hns⟩
        rcases List.mem_cons.mp hx with h | h
        · exact absurd (h ▸ hr) hns
        · exact ⟨h, hns⟩
    · rw [dedupAux, if_neg hr]
      constructor
      · intro hx
        rcases List.mem_cons.mp hx with h | h
        · subst h; exact ⟨List.mem_cons_self _ _, hr⟩
        · have h2 := (ih (r :: seen) x).mp h
          exact ⟨List.mem_cons_of_mem r h2.1, fun hs => h2.2 (List.mem_cons_of_mem r hs)⟩
      · rintro ⟨hx, hns⟩
        rcases List.mem_cons.mp hx with h | h
        · subst h; exact List.mem_cons_self _ _
        · by_cases hxr : x = r
          · subst hxr; exact List.mem_cons_self _ _
          · refine List.mem_cons_of_mem r ((ih (r :: seen) x).mpr ⟨h, ?_⟩)
            intro hs
            rcases List.mem_cons.mp hs with h2 | h2
            · exact hxr h2
            · exact hns h2

theorem mem_dedupRows (l : List (List Cell)) (x : List Cell) : x ∈ dedupRows l ↔ x ∈ l := by
  unfold dedupRows
  rw [mem_dedupAux]
  simp

theorem dedupAux_sublist : ∀ (l seen : List (List Cell)), (dedupAux seen l).Sublist l := by
  intro l
  induction l with
  | nil => intro seen; exact List.Sublist.refl _
  | cons r rs ih =>
    intro seen
    by_cases hr : r ∈ seen
    · rw [dedupAux, if_pos hr]; exact (ih seen).cons r
    · rw [dedupAux, if_neg hr]; exact (ih (r :: seen)).cons₂ r

theorem dedupRows_length_le (l : List (List Cell)) : (dedupRows l).length ≤ l.length :=
  (dedupAux_sublist l []).length_le

theorem coerceStep_headers_length (acc : DF) (j : Nat) :
    (coerceStep acc j).headers.length = acc.headers.length := by
  unfold coerceStep
  split
  · split
    · simp
    · rfl
  · rfl

theorem coerceStep_rows_length (acc : DF) (j : Nat) :
    (coerceStep acc j).rows.length = acc.rows.length := by
  unfold coerceStep
  split
  · split
    · simp
    · rfl
  · rfl

theorem coerceStep_names (acc : DF) (j : Nat) :
    (coerceStep acc j).headers.map Header.name = acc.headers.map Header.name := by
  unfold coerceStep
  split
  · split
    · show (acc.headers.set j { name := colName acc j, kind := CKind.numeric }).map Header.name
          = acc.headers.map Header.name
      rw [List.map_set]
      have h1 : colName acc j = (acc.headers.map Header.name).getD j "" := by
        rw [show ("" : String) = Header.name defHeader from rfl, getD_map]
        rfl
      rw [show Header.name { name := colName acc j, kind := CKind.numeric } = colName acc j from rfl,
        h1, set_getD_self]
    · rfl
  · rfl

theorem cellAt_set_coerce (r : List Cell) (i : Nat) :
    cellAt (r.set i ((cellToNum (cellAt r i)).getD (cellAt r i))) i
      = (cellToNum (cellAt r i)).getD (cellAt r i) := by
  rw [cellAt_set_self]
  by_cases h : i < r.length
  · rw [if_pos h]
  · rw [if_neg h, cellAt_ge r i (Nat.le_of_not_lt h)]
    rfl

theorem coerceStep_at_ne (acc : DF) (j i : Nat) (h : j ≠ i) :
    colKind (coerceStep acc j) i = colKind acc i ∧
    colCells (coerceStep acc j) i = colCells acc i := by
  unfold coerceStep
  split
  · split
    · constructor
      · show ((acc.headers.set j _).getD i defHeader).kind = colKind acc i
        rw [getD_set_ne _ _ _ _ _ h]
        rfl
      · show (acc.rows.map _).map (fun r => cellAt r i) = colCells acc i
        rw [List.map_map]
        exact List.map_congr_left (fun r _ => cellAt_set_ne r j i _ h)
    · exact ⟨rfl, rfl⟩
  · exact ⟨rfl, rfl⟩

theorem coerce_foldl_notmem : ∀ (l : List Nat) (acc : DF) (i : Nat), i ∉ l →
    colKind (l.foldl coerceStep acc) i = colKind acc i ∧
    colCells (l.foldl coerceStep acc) i = colCells acc i := by
  intro l
  induction l with
  | nil => intro acc i _; exact ⟨rfl, rfl⟩
  | cons j js ih =>
    intro acc i hi
    have hji : j ≠ i := fun he => hi (he ▸ List.mem_cons_self j js)
    have hit : i ∉ js := fun ht => hi (List.mem_cons_of_mem j ht)
    have h1 := coerceStep_at_ne acc j i hji
    have h2 := ih (coerceStep acc j) i hit
    rw [List.foldl_cons]
    exact ⟨h2.1.trans h1.1, h2.2.trans h1.2⟩

theorem coerce_foldl_mem : ∀ (l : List Nat) (acc : DF) (i : Nat), i ∈ l → l.Nodup →
    i < acc.headers.length →
    colKind (l.foldl coerceStep acc) i =
      (if colKind acc i = CKind.object ∧ colParses (colCells acc i) = true then CKind.numeric
       else colKind acc i) ∧
    colCells (l.foldl coerceStep acc) i =
      (if colKind acc i = CKind.object ∧ colParses (colCells acc i) = true then
        (colCells acc i).map (fun c => (cellToNum c).getD c)
       else colCells acc i) := by
  intro l
  induction l with
  | nil => intro acc i hi; cases hi
  | cons j js ih =>
    intro acc i hi hnd hlen
    rcases List.mem_cons.mp hi with he | ht
    · subst he
      have hjs : i ∉ js := (List.nodup_cons.mp hnd).1
      rw [List.foldl_cons]
      have hpres := coerce_foldl_notmem js (coerceStep acc i) i hjs
      rw [hpres.1, hpres.2]
      by_cases hk : colKind acc i = CKind.object
      · by_cases hp : colParses (colCells acc i) = true
        · rw [if_pos ⟨hk, hp⟩, if_pos ⟨hk, hp⟩]
          constructor
          · show colKind (coerceStep acc i) i = CKind.numeric
            unfold coerceStep
            rw [if_pos hk, if_pos hp]
            show ((acc.headers.set i _).getD i defHeader).kind = CKind.numeric
            rw [getD_set_self _ _ _ _ hlen]
          · show colCells (coerceStep acc i) i = _
            unfold coerceStep
            rw [if_pos hk, if_pos hp]
            show (acc.rows.map _).map (fun r => cellAt r i) = _
            rw [List.map_map]
            show acc.rows.map (fun r => cellAt (r.set i ((cellToNum (cellAt r i)).getD (cellAt r i))) i) = _
            rw [show (colCells acc i).map (fun c => (cellToNum c).getD c)
                  = acc.rows.map (fun r => (cellToNum (cellAt r i)).getD (cellAt r i)) by
              simp only [colCells, List.map_map]; rfl]
            exact List.map_congr_left (fun r _ => cellAt_set_coerce r i)
        · rw [if_neg (fun hc => hp hc.2), if_neg (fun hc => hp hc.2)]
          have : coerceStep acc i = acc := by
            unfold coerceStep
            rw [if_pos hk, if_neg hp]
          rw [this]
          exact ⟨rfl, rfl⟩
      · rw [if_neg (fun hc => hk hc.1), if_neg (fun hc => hk hc.1)]
        have : coerceStep acc i = acc := by
          unfold coerceStep
          rw [if_neg hk]
        rw [this]
        exact ⟨rfl, rfl⟩
    · rw [List.foldl_cons]
      have hnd2 := (List.nodup_cons.mp hnd).2
      have hji : j ≠ i := fun he => (List.nodup_cons.mp hnd).1 (he ▸ ht)
      have hpres := coerceStep_at_ne acc j i hji
      have hlen2 : i < (coerceStep acc j).headers.length := by
        rw [coerceStep_headers_length]; exact hlen
      have hmain := ih (coerceStep acc j) i ht hnd2 hlen2
      rw [hmain.1, hmain.2, hpres.1, hpres.2]
      exact ⟨rfl, rfl⟩

theorem imputeStep_headers (acc : DF) (i : Nat) : (imputeStep acc i).headers = acc.headers := by
  unfold imputeStep
  rcases median (colCells acc i) with _ | m
  · rfl
  · rfl

theorem imputeStep_rows_length (acc : DF) (i : Nat) :
    (imputeStep acc i).rows.length = acc.rows.length := by
  unfold imputeStep
  rcases median (colCells acc i) with _ | m
  · rfl
  · simp

theorem filterStep_headers (acc : DF) (i : Nat) : (filterStep acc i).headers = acc.headers := rfl

theorem filterStep_rows_length_le (acc : DF) (i : Nat) :
    (filterStep acc i).rows.length ≤ acc.rows.length := by
  unfold filterStep
  exact List.length_filter_le _ _

theorem filterStep_rows_subset (acc : DF) (i : Nat) (r : List Cell)
    (h : r ∈ (filterStep acc i).rows) : r ∈ acc.rows := by
  unfold filterStep at h
  exact List.mem_of_mem_filter h

theorem numericIdxs_congr (a b : DF) (h : a.headers = b.headers) :
    numericIdxs a = numericIdxs b := by
  simp only [numericIdxs, colKind, h]

theorem impute_foldl_headers (l : List Nat) (acc : DF) :
    (l.foldl imputeStep acc).headers = acc.headers :=
  foldl_inv DF.headers imputeStep imputeStep_headers l acc

theorem filter_foldl_headers (l : List Nat) (acc : DF) :
    (l.foldl filterStep acc).headers = acc.headers :=
  foldl_inv DF.headers filterStep filterStep_headers l acc

theorem coerce_foldl_headers_length (l : List Nat) (acc : DF) :
    (l.foldl coerceStep acc).headers.length = acc.headers.length :=
  foldl_inv (fun d => d.headers.length) coerceStep coerceStep_headers_length l acc

theorem coerce_foldl_names (l : List Nat) (acc : DF) :
    (l.foldl coerceStep acc).headers.map Header.name = acc.headers.map Header.name :=
  foldl_inv (fun d => d.headers.map Header.name) coerceStep coerceStep_names l acc

theorem coerce_foldl_rows_length (l : List Nat) (acc : DF) :
    (l.foldl coerceStep acc).rows.length = acc.rows.length :=
  foldl_inv (fun d => d.rows.length) coerceStep coerceStep_rows_length l acc

theorem impute_foldl_rows_length (l : List Nat) (acc : DF) :
    (l.foldl imputeStep acc).rows.length = acc.rows.length :=
  foldl_inv (fun d => d.rows.length) imputeStep imputeStep_rows_length l acc

theorem filter_foldl_rows_le (l : List Nat) (acc : DF) :
    (l.foldl filterStep acc).rows.length ≤ acc.rows.length :=
  foldl_le (fun d => d.rows.length) filterStep filterStep_rows_length_le l acc

theorem filter_foldl_subset (l : List Nat) (acc : DF) (r : List Cell)
    (h : r ∈ (l.foldl filterStep acc).rows) : r ∈ acc.rows :=
  foldl_subset filterStep filterStep_rows_subset l acc r h

/-- auto_correct_data is exactly the four stages composed in program order;
the numeric-column list of stage 4 is the one computed after coercion, which
imputation leaves unchanged. -/
theorem stages_eq (df : DF) :
    auto_correct_data df = outlierStage (imputeStage (coerceStage (dedupStage df))) := by
  simp only [auto_correct_data, dedupStage, coerceStage, imputeStage, outlierStage]
  congr 1
  exact (numericIdxs_congr _ _ (impute_foldl_headers _ _)).symm

theorem correct_rows_le (df : DF) : (auto_correct_data df).rows.length ≤ df.rows.length := by
  rw [stages_eq]
  simp only [outlierStage, imputeStage, coerceStage, dedupStage]
  calc (List.foldl filterStep _ _).rows.length
      ≤ _ := filter_foldl_rows_le _ _
    _ = _ := impute_foldl_rows_length _ _
    _ = (dedupRows df.rows).length := coerce_foldl_rows_length _ _
    _ ≤ df.rows.length := dedupRows_length_le _

theorem correct_names (df : DF) :
    (auto_correct_data df).headers.map Header.name = df.headers.map Header.name := by
  rw [stages_eq]
  simp only [outlierStage, imputeStage, coerceStage, dedupStage]
  rw [filter_foldl_headers, impute_foldl_headers, coerce_foldl_names]

theorem correct_headers (df : DF) :
    (auto_correct_data df).headers = (coerceStage (dedupStage df)).headers := by
  rw [stages_eq]
  simp only [outlierStage, imputeStage]
  rw [filter_foldl_headers, impute_foldl_headers]

theorem keepB_num (df : DF) (i : Nat) (r : List Cell) (h : keepB df i r = true) :
    isNumB (cellAt r i) = true := by
  unfold keepB at h
  rcases hf : fences (colCells df i) with _ | ⟨lo, hi⟩ <;> rw [hf] at h
  · simp at h
  · rcases hc : cellAt r i with _ | v | s <;> rw [hc] at h
    · simp at h
    · rfl
    · simp at h

theorem filter_foldl_num : ∀ (l : List Nat) (acc : DF) (i : Nat), i ∈ l →
    ∀ r ∈ (l.foldl filterStep acc).rows, isNumB (cellAt r i) = true := by
  intro l
  induction l with
  | nil => intro acc i hi; cases hi
  | cons j js ih =>
    intro acc i hi r hr
    by_cases ht : i ∈ js
    · exact ih (filterStep acc j) i ht r (by rwa [List.foldl_cons] at hr)
    · have he : i = j := by
        rcases List.mem_cons.mp hi with h | h
        · exact h
        · exact absurd h ht
      subst he
      rw [List.foldl_cons] at hr
      have h2 : r ∈ (filterStep acc i).rows := filter_foldl_subset js (filterStep acc i) r hr
      unfold filterStep at h2
      exact keepB_num acc i r (List.of_mem_filter h2)

theorem correct_numeric_filled (df : DF) (i : Nat)
    (h : i ∈ numericIdxs (auto_correct_data df)) :
    ∀ r ∈ (auto_correct_data df).rows, isNumB (cellAt r i) = true := by
  intro r hr
  rw [stages_eq] at hr h
  have hh : numericIdxs (outlierStage (imputeStage (coerceStage (dedupStage df))))
      = numericIdxs (imputeStage (coerceStage (dedupStage df))) :=
    numericIdxs_congr _ _ (by simp only [outlierStage]; exact filter_foldl_headers _ _)
  rw [hh] at h
  simp only [outlierStage] at hr
  exact filter_foldl_num _ _ i h r hr

theorem validate_data_eq (df : DF) :
    validate_data df =
      ((List.range df.headers.length).any (fun i => nMissing df i != 0)
        || (List.range df.headers.length).any (fun i => nonNumFlag df i)
        || !(outlierColNames df).isEmpty,
       validateReport df) := by
  have hocols : List.foldl
      (fun acc i => if (outlierRows df i).isEmpty then acc else acc ++ [colName df i]) []
      (numericIdxs df) = outlierColNames df :=
    (foldl_ifn_append (fun i => (outlierRows df i).isEmpty) (fun i => colName df i)
      (numericIdxs df) []).trans (by rw [List.nil_append]; rfl)
  simp only [validate_data, validateReport, missingPart, outlierPart, hocols]
  by_cases hm : (List.range df.headers.length).any (fun i => nMissing df i != 0)
  · rw [if_pos hm]
    rw [foldl_flag_append (fun i => nonNumFlag df i) (fun i => Issue.NonNumericColumn (colName df i))]
    by_cases ho : (outlierColNames df).isEmpty
    · rw [if_pos ho, if_pos ho]
      simp [hm, nonNumPart, ho]
    · rw [if_neg ho, if_neg ho]
      simp [hm, nonNumPart, ho, Bool.not_eq_true] at *
  · rw [if_neg hm]
    rw [foldl_flag_append (fun i => nonNumFlag df i) (fun i => Issue.NonNumericColumn (colName df i))]
    by_cases ho : (outlierColNames df).isEmpty
    · rw [if_pos ho, if_pos ho]
      simp [hm, nonNumPart, ho]
    · rw [if_neg ho, if_neg ho]
      simp [hm, nonNumPart, ho, Bool.not_eq_true] at *

theorem filterMap_if_eq_nil {γ δ : Type} (p : γ → Bool) (f : γ → δ) (l : List γ) :
    l.filterMap (fun i => if p i then some (f i) else none) = [] ↔ l.any p = false := by
  induction l with
  | nil => simp
  | cons x xs ih =>
    cases hp : p x <;> simp [List.filterMap_cons, hp, ih]

theorem missingPart_eq_nil (df : DF) :
    missingPart df = []
      ↔ (List.range df.headers.length).any (fun i => nMissing df i != 0) = false := by
  unfold missingPart
  cases h : (List.range df.headers.length).any (fun i => nMissing df i != 0) <;> simp [h]

theorem nonNumPart_eq_nil (df : DF) :
    nonNumPart df = []
      ↔ (List.range df.headers.length).any (fun i => nonNumFlag df i) = false := by
  unfold nonNumPart
  exact filterMap_if_eq_nil (fun i => nonNumFlag df i)
    (fun i => Issue.NonNumericColumn (colName df i)) (List.range df.headers.length)

theorem outlierPart_eq_nil (df : DF) :
    outlierPart df = [] ↔ (outlierColNames df).isEmpty = true := by
  unfold outlierPart
  cases h : (outlierColNames df).isEmpty <;> simp [h]

theorem bool_eq_of_iff {a b : Bool} (h : a = true ↔ b = true) : a = b := by
  cases a <;> cases b <;> simp_all

theorem dedupRows_all (l : List (List Cell)) (p : List Cell → Bool) :
    (dedupRows l).all p = l.all p := by
  apply bool_eq_of_iff
  rw [List.all_eq_true, List.all_eq_true]
  constructor
  · intro h x hx; exact h x ((mem_dedupRows l x).mpr hx)
  · intro h x hx; exact h x ((mem_dedupRows l x).mp hx)

theorem colParses_dedup (df : DF) (i : Nat) :
    colParses (colCells (dedupStage df) i) = colParses (colCells df i) := by
  unfold colParses colCells dedupStage
  apply bool_eq_of_iff
  rw [List.all_eq_true, List.all_eq_true]
  constructor
  · intro h c hc
    rcases List.mem_map.mp hc with ⟨r, hr, he⟩
    exact h c (List.mem_map.mpr ⟨r, (mem_dedupRows df.rows r).mpr hr, he⟩)
  · intro h c hc
    rcases List.mem_map.mp hc with ⟨r, hr, he⟩
    exact h c (List.mem_map.mpr ⟨r, (mem_dedupRows df.rows r).mp hr, he⟩)

/-- C1 counterexample: on dC1 the column a has Q1 = Q3 = 0, hence IQR = 0, yet
validate_data lists a in the combined outliers issue (the value 100 exceeds
the collapsed upper fence) and auto_correct_data removes the offending row
(5 input rows, 4 output rows) — contradicting the claim that a zero-IQR
column flags no value and loses no row. -/
theorem C1_counterexample :
    validate_data dC1 = (true, [Issue.OutlierColumns ["a"]]) ∧
    quantile (colCells dC1 1) (1/4) = some 0 ∧ quantile (colCells dC1 1) (3/4) = some 0 ∧
    (auto_correct_data dC1).rows.length = 4 ∧ dC1.rows.length = 5 :=
  ⟨by with_unfolding_all rfl, by with_unfolding_all rfl, by with_unfolding_all rfl,
   by with_unfolding_all rfl, rfl⟩

/-- C1 amended: when a column's quartiles coincide (Q1 = Q3 = m, i.e. IQR = 0)
the fence rule applies unchanged with both fences collapsed to m: the
Validator's outlier scan flags exactly the rows whose value differs from m
(missing cells still flag nothing), and the Corrector's removal step for that
column keeps exactly the rows whose value equals m. -/
theorem C1_amended (df : DF) (i : Nat) (m : ℚ)
    (h1 : quantile (colCells df i) (1/4) = some m)
    (h3 : quantile (colCells df i) (3/4) = some m) :
    outlierRows df i = df.rows.filter (fun r => devFrom m (cellAt r i)) ∧
    (filterStep df i).rows = df.rows.filter (fun r => decide (cellAt r i = Cell.num m)) := by
  have hf : fences (colCells df i) = some (m, m) := by
    unfold fences
    rw [h1, h3]
    show some (m - 3/2 * (m - m), m + 3/2 * (m - m)) = some (m, m)
    simp
  constructor
  · unfold outlierRows
    apply List.filter_congr
    intro r _
    unfold outB
    rw [hf]
    cases hc : cellAt r i
    · rfl
    · show decide (_ < m ∨ m < _) = devFrom m (Cell.num _)
      unfold devFrom
      rw [decide_eq_decide]
      exact lt_or_lt_iff_ne
    · rfl
  · show df.rows.filter (keepB df i) = _
    apply List.filter_congr
    intro r _
    unfold keepB
    rw [hf]
    cases hc : cellAt r i
    · simp
    · rw [decide_eq_decide]
      constructor
      · intro hv; rw [le_antisymm hv.2 hv.1]
      · intro hv
        have he := Cell.num.inj hv
        exact ⟨le_of_eq he.symm, le_of_eq he⟩
    · simp

/-- C1 witness: the amended statement instantiated on dC1, column a, m = 0:
the outlier rows are exactly the rows deviating from 0, namely the single row
carrying 100. -/
theorem C1_amended_witness :
    outlierRows dC1 1 = dC1.rows.filter (fun r => devFrom 0 (cellAt r 1)) ∧
    outlierRows dC1 1 = [[Cell.num 5, Cell.num 100]] := by
  have h := C1_amended dC1 1 0 (by with_unfolding_all rfl) (by with_unfolding_all rfl)
  exact ⟨h.1, by rw [h.1]; with_unfolding_all rfl⟩

/-- C2: on dC2 (numeric column A entirely missing, column B = [1,2]) the
imputation stage indeed changes nothing (the undefined median imputes no
value) — but the outlier-removal stage then removes every row of the
dataset, because the undefined quartiles of A make the keep-filter false for
all rows, instead of short-circuiting to no outliers detected as the claim
requires. -/
theorem C2_code_bug :
    imputeStage (coerceStage (dedupStage dC2)) = dC2 ∧
    (auto_correct_data dC2).rows = [] ∧
    dC2.rows.length = 2 :=
  ⟨by with_unfolding_all rfl, by with_unfolding_all rfl, rfl⟩

/-- C3 counterexample: under the empty exempt configuration the column
Customer of dC3 is textual and non-exempt, so the claimed configurable check
would report it (as the spec-modelled scan does), but validate_data never
does: its allow-list is hard-coded and swallows the name. -/
theorem C3_counterexample :
    (colKind dC3 0 = CKind.object ∧ lowerStr (colName dC3 0) ∉ ([] : List String)) ∧
    nonNumPartCfg [] dC3 = [Issue.NonNumericColumn "Customer"] ∧
    Issue.NonNumericColumn "Customer" ∉ (validate_data dC3).2 :=
  ⟨⟨rfl, by simp⟩, by with_unfolding_all rfl, by with_unfolding_all decide⟩

/-- C3 amended: validate_data takes no configuration; a non-numeric-column
issue for a name s appears in its report exactly when some column position
carries that name, has object dtype, and the lowercased name lies outside the
fixed hard-coded allow-list customer/region/product/category. -/
theorem C3_amended (df : DF) (s : String) :
    Issue.NonNumericColumn s ∈ (validate_data df).2 ↔
      ∃ i, i < df.headers.length ∧ colName df i = s ∧ colKind df i = CKind.object ∧
        lowerStr s ∉ exemptNames := by
  rw [validate_data_eq]
  show Issue.NonNumericColumn s ∈ validateReport df ↔ _
  unfold validateReport
  have hmp : Issue.NonNumericColumn s ∉ missingPart df := by
    unfold missingPart
    cases h : (List.range df.headers.length).any (fun i => nMissing df i != 0) <;> simp
  have hop : Issue.NonNumericColumn s ∉ outlierPart df := by
    unfold outlierPart
    cases h : (outlierColNames df).isEmpty <;> simp
  rw [List.mem_append, List.mem_append]
  simp only [hmp, hop, false_or, or_false]
  unfold nonNumPart
  rw [List.mem_filterMap]
  constructor
  · rintro ⟨i, hi, hif⟩
    rw [List.mem_range] at hi
    by_cases hf : nonNumFlag df i
    · rw [if_pos hf] at hif
      have hs : colName df i = s := Issue.NonNumericColumn.inj (Option.some.inj hif)
      have hflag := of_decide_eq_true hf
      exact ⟨i, hi, hs, hflag.1, hs ▸ hflag.2⟩
    · rw [if_neg hf] at hif; cases hif
  · rintro ⟨i, hi, hs, hk, hns⟩
    refine ⟨i, List.mem_range.mpr hi, ?_⟩
    have hf : nonNumFlag df i = true := decide_eq_true ⟨hk, by rw [hs]; exact hns⟩
    rw [if_pos hf, hs]

/-- C4 counterexample: on dC4 imputation turns the two distinct input rows
into equal rows, so auto_correct_data returns a dataset with duplicates and a
second application deduplicates again — correct of correct differs from
correct. -/
theorem C4_counterexample :
    auto_correct_data (auto_correct_data dC4) ≠ auto_correct_data dC4 ∧
    (auto_correct_data dC4).rows = [[Cell.num 1, Cell.num 2], [Cell.num 1, Cell.num 2]] ∧
    (auto_correct_data (auto_correct_data dC4)).rows = [[Cell.num 1, Cell.num 2]] :=
  ⟨by with_unfolding_all decide, by with_unfolding_all rfl, by with_unfolding_all rfl⟩

/-- C4 amended: a double application of auto_correct_data never gains rows
over a single one, and leaves every numeric column free of missing cells
(each cell of a numeric column is an actual number); but the second
application is not a no-op in general — imputation can create duplicate
rows, so equality with the single application, duplicate-freeness and
outlier-freeness with respect to the second call's input all fail. -/
theorem C4_amended (df : DF) :
    (auto_correct_data (auto_correct_data df)).rows.length ≤ (auto_correct_data df).rows.length ∧
    (∀ i, i ∈ numericIdxs (auto_correct_data (auto_correct_data df)) →
      ∀ r, r ∈ (auto_correct_data (auto_correct_data df)).rows → isNumB (cellAt r i) = true) :=
  ⟨correct_rows_le (auto_correct_data df),
   fun i hi r hr => correct_numeric_filled (auto_correct_data df) i hi r hr⟩

/-- C4 witness: the amended statement instantiated on dC4: the surviving row
of the double correction has a numeric value in column A. -/
theorem C4_amended_witness :
    isNumB (cellAt [Cell.num 1, Cell.num 2] 0) = true :=
  (C4_amended dC4).2 0 (by with_unfolding_all decide) [Cell.num 1, Cell.num 2]
    (by with_unfolding_all decide)

/-- C5: coercion inside auto_correct_data is all-or-nothing per column: a
textual column ends up Numeric iff every cell parses (its cells then being
the parsed numeric forms), and otherwise is left untouched by the coercion
stage; in particular the column ["1","2","x"] passes through
auto_correct_data entirely unchanged while ["1","2","3"] comes out numeric. -/
theorem C5_all_or_nothing :
    (∀ df i, i < df.headers.length → colKind df i = CKind.object →
      colKind (auto_correct_data df) i =
        (if colParses (colCells df i) then CKind.numeric else CKind.object) ∧
      colCells (coerceStage (dedupStage df)) i =
        (if colParses (colCells df i) then
          (colCells (dedupStage df) i).map (fun c => (cellToNum c).getD c)
         else colCells (dedupStage df) i)) ∧
    auto_correct_data exBlocked = exBlocked ∧
    auto_correct_data exAllNum =
      { headers := [{ name := "v", kind := CKind.numeric }],
        rows := [[Cell.num 1], [Cell.num 2], [Cell.num 3]] } := by
  refine ⟨?_, by with_unfolding_all rfl, by with_unfolding_all rfl⟩
  intro df i hlen hk
  have hck : colKind (auto_correct_data df) i = colKind (coerceStage (dedupStage df)) i := by
    unfold colKind
    rw [correct_headers]
  have hdlen : i < (dedupStage df).headers.length := hlen
  have hchar := coerce_foldl_mem (List.range (dedupStage df).headers.length) (dedupStage df) i
    (List.mem_range.mpr hdlen) (List.nodup_range _) hdlen
  have hkd : colKind (dedupStage df) i = CKind.object := hk
  have hcp := colParses_dedup df i
  by_cases hp : colParses (colCells df i) = true
  · have hcond : colKind (dedupStage df) i = CKind.object ∧
        colParses (colCells (dedupStage df) i) = true := ⟨hkd, by rw [hcp]; exact hp⟩
    constructor
    · rw [hck]
      show colKind (List.foldl coerceStep (dedupStage df)
        (List.range (dedupStage df).headers.length)) i = _
      rw [hchar.1, if_pos hcond, if_pos hp]
    · show colCells (List.foldl coerceStep (dedupStage df)
        (List.range (dedupStage df).headers.length)) i = _
      rw [hchar.2, if_pos hcond, if_pos hp]
  · have hcond : ¬(colKind (dedupStage df) i = CKind.object ∧
        colParses (colCells (dedupStage df) i) = true) := fun hc => hp (by rw [← hcp]; exact hc.2)
    constructor
    · rw [hck]
      show colKind (List.foldl coerceStep (dedupStage df)
        (List.range (dedupStage df).headers.length)) i = _
      rw [hchar.1, if_neg hcond, if_neg hp]
      exact hkd
    · show colCells (List.foldl coerceStep (dedupStage df)
        (List.range (dedupStage df).headers.length)) i = _
      rw [hchar.2, if_neg hcond, if_neg hp]

/-- C5 witness: the general statement instantiated on the blocked example
column ["1","2","x"]: its kind after auto_correct_data is given by the
all-or-nothing condition (and stays object). -/
theorem C5_witness :
    colKind (auto_correct_data exBlocked) 0 =
      (if colParses (colCells exBlocked 0) then CKind.numeric else CKind.object) :=
  ((C5_all_or_nothing.1) exBlocked 0 (by decide) (by decide)).1

/-- C6: auto_correct_data is exactly the four stages run in order
(deduplication keeping first occurrences, all-or-nothing coercion, median
imputation, outlier removal over the post-imputation data), and stage 4 is
genuinely cascading: on dC6 it keeps 4 rows, while the spec's alternative
snapshot policy (all fences computed on the stage-3 output) would keep 3. -/
theorem C6_stage_order :
    (∀ df, auto_correct_data df = outlierStage (imputeStage (coerceStage (dedupStage df)))) ∧
    auto_correct_data dC6 ≠ snapshotCorrect dC6 ∧
    (auto_correct_data dC6).rows.length = 4 ∧ (snapshotCorrect dC6).rows.length = 3 :=
  ⟨stages_eq, by with_unfolding_all decide, by with_unfolding_all rfl, by with_unfolding_all rfl⟩

/-- C7: auto_correct_data never adds rows and preserves the column list
(names in order): its stages only drop rows or rewrite cell values and
column kinds. -/
theorem C7_shape (df : DF) :
    (auto_correct_data df).rows.length ≤ df.rows.length ∧
    (auto_correct_data df).headers.map Header.name = df.headers.map Header.name :=
  ⟨correct_rows_le df, correct_names df⟩

/-- C8: validate_data is pure: threading the dataframe state through its
three scans returns the dataframe unchanged, the produced result is the
plain validate_data result, and a repeated call on the returned state yields
an identical result. -/
theorem C8_validator_pure (df : DF) :
    (validateSt df).2 = df ∧
    (validateSt df).1 = validate_data df ∧
    (validateSt ((validateSt df).2)).1 = (validateSt df).1 :=
  ⟨rfl, rfl, rfl⟩

/-- C9: the report of validate_data is the ordered concatenation of the
missing-values issue (if any, with the per-column nonzero counts in column
order), the per-column non-numeric issues in column order, and the single
combined outliers issue last; the issuesFound flag is true exactly when the
report is non-empty. -/
theorem C9_report_structure (df : DF) :
    (validate_data df).2 = missingPart df ++ nonNumPart df ++ outlierPart df ∧
    ((validate_data df).1 = true ↔ (validate_data df).2 ≠ []) := by
  rw [validate_data_eq]
  refine ⟨rfl, ?_⟩
  show (_ || _ || _) = true ↔ validateReport df ≠ []
  unfold validateReport
  rw [Ne, List.append_eq_nil, List.append_eq_nil]
  rw [missingPart_eq_nil, nonNumPart_eq_nil, outlierPart_eq_nil]
  cases hA : (List.range df.headers.length).any (fun i => nMissing df i != 0) <;>
  cases hB : (List.range df.headers.length).any (fun i => nonNumFlag df i) <;>
  cases hO : (outlierColNames df).isEmpty <;> simp

/-- C10: in the Validator's outlier scan a missing cell never satisfies the
outlier predicate: when a column's fences are defined and every non-missing
value lies inside them, the outlier row-set is empty — however many cells are
missing — so the column is not recorded for the combined outliers issue. -/
theorem C10_within_fences (df : DF) (i : Nat) (lo hi : ℚ)
    (hf : fences (colCells df i) = some (lo, hi))
    (hin : ∀ v ∈ numsOf (colCells df i), lo ≤ v ∧ v ≤ hi) :
    outlierRows df i = [] := by
  unfold outlierRows
  rw [List.filter_eq_nil_iff]
  intro r hr
  unfold outB
  rw [hf]
  cases hc : cellAt r i with
  | na => simp
  | num v =>
    have hv : v ∈ numsOf (colCells df i) := by
      unfold numsOf
      rw [List.mem_filterMap]
      exact ⟨Cell.num v, List.mem_map.mpr ⟨r, hr, hc⟩, rfl⟩
    have h2 := hin v hv
    simp only [decide_eq_true_eq]
    push_neg
    exact ⟨h2.1, h2.2⟩
  | str s => simp

/-- C10 witness: the statement instantiated on dC10, whose column has two
missing cells, all values inside the fences (0, 4): no outlier row. -/
theorem C10_witness : outlierRows dC10 0 = [] :=
  C10_within_fences dC10 0 0 4 (by with_unfolding_all rfl) (by with_unfolding_all decide)
